import Mathlib

/-
Verification of the Chapel AST explorer (`explorer.v2.py`).

The development shallowly embeds the program's data model and operations:

* `processSegment`, `processLine`, `richConsoleGo`, `rich_console` embed
  `SyntaxWithUnderline.__rich_console__` (lines 35-86): the underline overlay
  over a stream of styled segments.  The tokenizer (`Syntax._get_syntax`
  followed by `Segment.split_lines`) is an external collaborator; its output
  is taken as an arbitrary `List (List Segment)`, one segment list per line,
  with newline characters removed (which is what `Segment.split_lines`
  produces).
* `show_ast`, `reparse`, `populate_tree_with_ast`, `on_input_submitted`,
  `exec_with_return` embed the corresponding methods of `AstExplorer`.
  Python's `exec`/`eval` are modelled on the fragment of Python that the
  claims exercise (integer and string literals, names, `+`, calls of
  builtins, assignments, `pass`, `if`); parsing (`ast.parse`) is external,
  so snippets enter the model as statement lists.
* Python slicing (`text[a:b]`, `text[a:]`) is embedded by `pySlice` /
  `pySliceFrom` with Python's clamping and negative-wrapping rules.

A fact that matters for the rendering theorems: `rich.segment.Segment` is a
three-field `NamedTuple` (`text`, `style`, `control`) that does not override
`__len__`, so Python's `len(s)` for a `Segment` `s` is the tuple arity `3`
(verified against rich 13.4.2; no rich release defines `Segment.__len__`).
Hence `sum(len(s) for s in seg_line)` on line 50 of the source evaluates to
`3 * len(seg_line)`, not to the number of characters on the line.  This is
embedded faithfully by `pyLenSegment` below.
-/

namespace ChapelExplorer

/-! ### Python list/string slicing -/

/-- Clamp a Python slice bound to an index into a sequence of length `n`:
negative bounds count from the end, positive bounds clamp to `n`. -/
def pyIdx (n : Nat) (i : Int) : Nat :=
  if i < 0 then ((n : Int) + i).toNat else min i.toNat n

/-- Python `l[a:b]`. -/
def pySlice {α : Type} (l : List α) (a b : Int) : List α :=
  (l.take (pyIdx l.length b)).drop (pyIdx l.length a)

/-- Python `l[a:]`. -/
def pySliceFrom {α : Type} (l : List α) (a : Int) : List α :=
  l.drop (pyIdx l.length a)

/-! ### rich styles and segments -/

/-- A rich `Style`: an additively composable attribute set.  We model the
two attributes the program can distinguish: some colouring attribute and the
underline attribute.  Each is tri-state (`none` = unset), as in rich. -/
structure Style where
  color : Option Nat := none
  underline : Option Bool := none
deriving DecidableEq, Repr

/-- `Style.copy()` returns an equal style. -/
def Style.copy (s : Style) : Style := s

/-- `style + Style(underline=True)`: rich's `+` lets the right operand's set
attributes override; `Style(underline=True)` sets only `underline`. -/
def Style.plusUnderline (s : Style) : Style := { s with underline := some true }

/-- Lines 71-72 of the source:
`new_style = segment.style.copy() if segment.style else Style()` followed by
`new_style += Style(underline=True)`. -/
def newStyleOf (os : Option Style) : Style :=
  Style.plusUnderline (Style.copy (os.getD {}))

/-- A rich `Segment`: a piece of text with an optional style (the `control`
field is never set by this program). -/
structure Segment where
  text : List Char
  style : Option Style := none
deriving DecidableEq, Repr

/-- Python `len(s)` for a rich `Segment`: `Segment` is a three-field
`NamedTuple` without a `__len__` override, so `len(s) = 3` regardless of the
segment's text. -/
def pyLenSegment (_ : Segment) : Int := 3

/-! ### The underline overlay (`SyntaxWithUnderline.__rich_console__`) -/

/-- One iteration of the inner `for segment in seg_line` loop
(lines 53-77): either one of the two fast paths emits the segment
unchanged, or the segment is split into three pieces with the middle piece
restyled. -/
def processSegment (start_line start_column end_line end_column
    line start_pos end_pos col : Int) (segment : Segment) : List Segment :=
  let next_col : Int := col + segment.text.length
  if line = start_line ∧ next_col ≤ start_column then [segment]
  else if line = end_line ∧ col ≥ end_column then [segment]
  else
    let my_start_pos : Int := max (start_pos - col) 0
    let my_end_pos : Int := min (end_pos - col) (segment.text.length : Int)
    let new_style : Style := newStyleOf segment.style
    [⟨pySlice segment.text 0 my_start_pos, segment.style⟩,
     ⟨pySlice segment.text my_start_pos my_end_pos, some new_style⟩,
     ⟨pySliceFrom segment.text my_end_pos, segment.style⟩]

/-- The inner loop over one line's segments, threading the running column
counter `col`. -/
def processLine (start_line start_column end_line end_column
    line start_pos end_pos : Int) : Int → List Segment → List Segment
  | _, [] => []
  | col, segment :: rest =>
      processSegment start_line start_column end_line end_column
        line start_pos end_pos col segment ++
      processLine start_line start_column end_line end_column
        line start_pos end_pos (col + segment.text.length) rest

/-- Lines 48-50 and 52-77: per-line processing; `start_pos` and `end_pos`
are computed exactly as in the source.  Note `end_pos` on a non-final line
is `sum(len(s) for s in seg_line) = 3 * len(seg_line)` (see `pyLenSegment`). -/
def richConsoleLine (start_line start_column end_line end_column
    line : Int) (seg_line : List Segment) : List Segment :=
  let start_pos : Int := if line > start_line then 0 else start_column
  let end_pos : Int :=
    if line < end_line then (seg_line.map pyLenSegment).sum else end_column
  processLine start_line start_column end_line end_column
    line start_pos end_pos 0 seg_line

/-- The outer `for (line, seg_line) in enumerate(...)` loop (lines 41-77):
a literal newline separator before every line but the first, and lines
outside `[start_line, end_line]` contribute no segments. -/
def richConsoleGo (start_line start_column end_line end_column : Int) :
    Int → List (List Segment) → List Segment
  | _, [] => []
  | line, seg_line :: rest =>
      (if line > 0 then [Segment.mk ['\n'] none] else []) ++
      (if line < start_line ∨ line > end_line then []
       else richConsoleLine start_line start_column end_line end_column
         line seg_line) ++
      richConsoleGo start_line start_column end_line end_column (line + 1) rest

/-- `SyntaxWithUnderline.__rich_console__` applied to the tokenizer output
`seg_lines`; `location = ((start_line, start_column), (end_line, end_column))`
as unpacked in `__init__` (line 33). -/
def rich_console (location : (Int × Int) × (Int × Int))
    (seg_lines : List (List Segment)) : List Segment :=
  richConsoleGo location.1.1 location.1.2 location.2.1 location.2.2 0 seg_lines

/-- Ordinary rendering of the same tokenizer output (a plain `Syntax`
renderable yields its segment stream unmodified; `Segment.split_lines`
removed the newline separators, so ordinary rendering re-joins with them). -/
def renderPlain (seg_lines : List (List Segment)) : List Segment :=
  List.intercalate [Segment.mk ['\n'] none] seg_lines

/-! ### Character-level observations of a segment stream -/

/-- The characters of a segment, each paired with the segment's style. -/
def segChars (s : Segment) : List (Char × Option Style) :=
  s.text.map (fun c => (c, s.style))

/-- The characters of a segment stream, in order, with their styles. -/
def segsChars (l : List Segment) : List (Char × Option Style) :=
  (l.map segChars).flatten

/-- Whether an optional style carries the underline attribute. -/
def isUnderlined (os : Option Style) : Bool :=
  match os with
  | none => false
  | some s => s.underline = some true

/-! ### Parser-facing data model -/

/-- A source range as returned by `ast.location()`: `start() = (startLine,
startCol)`, `end() = (endLine, endCol)`; `startLine = -1` is the sentinel
for "no location". -/
structure SourceRange where
  startLine : Int
  startCol : Int
  endLine : Int
  endCol : Int
deriving DecidableEq, Repr

/-- A parser AST node: `unique_id()`, `tag()`, `location()` and the child
iteration. -/
inductive AstNode where
  | mk (uid : Nat) (tag : String) (loc : SourceRange) (children : List AstNode)
deriving Repr

def AstNode.uid : AstNode → Nat
  | .mk u _ _ _ => u

def AstNode.tag : AstNode → String
  | .mk _ t _ _ => t

def AstNode.loc : AstNode → SourceRange
  | .mk _ _ l _ => l

def AstNode.children : AstNode → List AstNode
  | .mk _ _ _ c => c

/-- A node of the Textual tree widget: `add(label, data=ast)` or
`add_leaf(label, data=ast)`. -/
inductive UITree where
  | node (label : String) (data : AstNode) (isLeaf : Bool) (children : List UITree)
deriving Repr

/-- Builtin callables reachable from a snippet: the host-provided REPL
commands (lines 106-108) plus the Python builtins the claims exercise. -/
inductive BFn where
  | bprint
  | bselect
  | breparse
  | babs
deriving DecidableEq, Repr

/-- A Python value of the fragment the snippets exercise. -/
inductive Value where
  | vint (n : Int)
  | vstr (s : String)
  | vnone
  | vnode (a : AstNode)
  | vfun (f : BFn)
deriving Repr

/-- An entry of the `RichLog` code pane: either a plain `Syntax` renderable
or a `SyntaxWithUnderline` renderable (rendered by `rich_console`). -/
inductive Renderable where
  | plain (text : String) (language : String)
  | withUnderline (location : (Int × Int) × (Int × Int)) (text : String)
      (language : String)
deriving DecidableEq, Repr

/-- Association-list update with Python `dict` semantics: replace in place
if the key is present, else append. -/
def setKey {κ α : Type} [DecidableEq κ] : List (κ × α) → κ → α → List (κ × α)
  | [], k, v => [(k, v)]
  | (k', v') :: rest, k, v =>
      if k' = k then (k', v) :: rest else (k', v') :: setKey rest k v

/-- Association-list lookup (`dict.__getitem__`, as an option). -/
def getKey {κ α : Type} [DecidableEq κ] : List (κ × α) → κ → Option α
  | [], _ => none
  | (k', v') :: rest, k => if k' = k then some v' else getKey rest k

/-- The mutable state of the `AstExplorer` app that the claims observe.
`codelog` holds the renderables written to the code pane since its last
`clear()`; `translog` is the transcript `Log` written by
`on_input_submitted`.  (`max_line_length`, the scroll position and the
`repllog` pane affect only presentation and are not modelled.) -/
structure AppState where
  text : String
  text_lines : List String
  asts : List AstNode
  selected_ast : Option AstNode
  history : List Value
  env : List (String × Value)
  repl_globals : List (String × Value)
  tree_nodes_for_ast : List (Nat × AstNode)
  tree_children : List UITree
  codelog : List Renderable
  translog : List String

/-! ### `show_ast` (lines 129-153) -/

/-- `AstExplorer.show_ast`.  Sets `selected_ast`; on `None` clears the pane
and writes the whole document as plain chapel `Syntax`; on a node whose
location starts at `-1` it returns immediately (leaving the pane as it
was); otherwise it clears the pane and writes the before/selected/after
slices, the middle one through `SyntaxWithUnderline` with the relative
location of line 143.  The final `scroll_to` only moves the viewport. -/
def show_ast (st : AppState) (ast : Option AstNode) : AppState :=
  let st1 := { st with selected_ast := ast }
  match ast with
  | none =>
      { st1 with codelog := [Renderable.plain st.text "chapel"] }
  | some a =>
      let first_line := a.loc.startLine
      let first_col := a.loc.startCol
      let last_line := a.loc.endLine
      let last_col := a.loc.endCol
      if first_line = -1 then st1
      else
        let underline_loc : (Int × Int) × (Int × Int) :=
          ((0, first_col - 1), (last_line - first_line, last_col - 1))
        let lines_before := pySlice st.text_lines 0 (first_line - 1)
        let lines_selected := pySlice st.text_lines (first_line - 1) last_line
        let lines_after := pySliceFrom st.text_lines last_line
        { st1 with codelog :=
            [Renderable.plain (String.intercalate "\n" lines_before) "text",
             Renderable.withUnderline underline_loc
               (String.intercalate "\n" lines_selected) "chapel",
             Renderable.plain (String.intercalate "\n" lines_after) "text"] }

/-! ### Tree projection (lines 116-127) and `reparse` (lines 202-207) -/

mutual
/-- `AstExplorer.populate_tree_with_ast`: create the UI node (leaf iff no
children), register it in `tree_nodes_for_ast` keyed by `unique_id()` (the
table maps the id to the node's `data`, i.e. the AST node), then recurse
into the children.  Returns the built UI node and the updated table. -/
def populate_tree_with_ast (a : AstNode) (tbl : List (Nat × AstNode)) :
    UITree × List (Nat × AstNode) :=
  match a with
  | .mk uid tag loc children =>
      let tbl1 := setKey tbl uid (AstNode.mk uid tag loc children)
      let (childNodes, tbl2) := populate_children children tbl1
      (UITree.node tag (AstNode.mk uid tag loc children)
        children.isEmpty childNodes, tbl2)

/-- `AstExplorer.populate_tree_with_asts`: project each root in order. -/
def populate_children (l : List AstNode) (tbl : List (Nat × AstNode)) :
    List UITree × List (Nat × AstNode) :=
  match l with
  | [] => ([], tbl)
  | a :: rest =>
      let (n, tbl1) := populate_tree_with_ast a tbl
      let (ns, tbl2) := populate_children rest tbl1
      (n :: ns, tbl2)
end

/-- `AstExplorer.reparse`: advance the parser revision (external; its
outputs are the new text, line list and forest), re-derive the document,
remove the tree's children and repopulate them, then `show_ast(None)`.
Note that `tree_nodes_for_ast` is *not* reset before repopulating: entries
for ids absent from the new forest survive. -/
def reparse (st : AppState) (newText : String) (newLines : List String)
    (newAsts : List AstNode) : AppState :=
  let st1 := { st with text := newText, text_lines := newLines, asts := newAsts }
  let (children, tbl) := populate_children newAsts st1.tree_nodes_for_ast
  let st2 := { st1 with tree_children := children, tree_nodes_for_ast := tbl }
  show_ast st2 none

/-! ### The snippet evaluator

`ast.parse` is external, so a submitted snippet enters the model as its
parsed statement list.  The expression/statement fragment below covers what
the claims exercise; `exec`/`eval` chain the two scopes exactly as Python
does for `exec(code, globals, locals)`: name loads search locals, then
globals, then the builtins; assignments write to locals. -/

/-- A Python expression of the modelled fragment. -/
inductive Expr where
  | num (n : Int)
  | str (s : String)
  | name (x : String)
  | binAdd (a b : Expr)
  | call (f : Expr) (args : List Expr)
deriving Repr

/-- A Python statement of the modelled fragment.  A call used as a
statement is an `Expr.exprStmt` wrapping an `Expr.call`, exactly as in
Python's AST (`ast.Expr` around `ast.Call`). -/
inductive Stmt where
  | exprStmt (e : Expr)
  | assign (target : String) (e : Expr)
  | augAssign (target : String) (e : Expr)
  | annAssign (target : String) (e : Expr)
  | passStmt
  | ifStmt (cond : Expr) (thn els : List Stmt)
deriving Repr

/-- The Python builtins reachable through `__builtins__` of the copied
module globals that the claims use. -/
def builtinValue (x : String) : Option Value :=
  if x = "abs" then some (Value.vfun BFn.babs)
  else if x = "print" then some (Value.vfun BFn.bprint)
  else none

/-- The REPL globals installed by `AstExplorer.__init__` (lines 102-108):
`globals().copy()` with `print`, `select` and `reparse` rebound to host
callbacks.  (The other module-level names carried over by the copy are not
reachable from any claim and are omitted.) -/
def initGlobals : List (String × Value) :=
  [("print", Value.vfun BFn.bprint),
   ("select", Value.vfun BFn.bselect),
   ("reparse", Value.vfun BFn.breparse)]

/-- Name resolution inside `exec`/`eval`: locals, then globals, then
builtins; otherwise a `NameError`. -/
def lookupName (g l : List (String × Value)) (x : String) :
    Except String Value :=
  match getKey l x with
  | some v => Except.ok v
  | none =>
      match getKey g x with
      | some v => Except.ok v
      | none =>
          match builtinValue x with
          | some v => Except.ok v
          | none =>
              Except.error ("NameError: name " ++ x ++ " is not defined")

/-- Application of a builtin callable.  `print` writes to the `repllog`
pane (a presentation effect not modelled) and returns `None`; `abs` is the
numeric builtin.  The `select`/`reparse` host callbacks re-enter the UI and
are outside the modelled fragment (no claim invokes them). -/
def applyBuiltin (f : BFn) (args : List Value) : Except String Value :=
  match f, args with
  | BFn.bprint, _ => Except.ok Value.vnone
  | BFn.babs, [Value.vint n] => Except.ok (Value.vint n.natAbs)
  | BFn.babs, _ => Except.error "TypeError: bad operand type for abs"
  | BFn.bselect, _ => Except.error "select: UI callback outside the modelled fragment"
  | BFn.breparse, _ => Except.error "reparse: UI callback outside the modelled fragment"

mutual
/-- `eval` of an expression against the chained scopes. -/
def evalExpr (g l : List (String × Value)) : Expr → Except String Value
  | .num n => Except.ok (Value.vint n)
  | .str s => Except.ok (Value.vstr s)
  | .name x => lookupName g l x
  | .binAdd a b => do
      let va ← evalExpr g l a
      let vb ← evalExpr g l b
      match va, vb with
      | Value.vint x, Value.vint y => Except.ok (Value.vint (x + y))
      | Value.vstr x, Value.vstr y => Except.ok (Value.vstr (x ++ y))
      | _, _ => Except.error "TypeError: unsupported operand types for +"
  | .call f args => do
      let vf ← evalExpr g l f
      let vs ← evalArgs g l args
      match vf with
      | Value.vfun bf => applyBuiltin bf vs
      | _ => Except.error "TypeError: object is not callable"

/-- Left-to-right evaluation of an argument list. -/
def evalArgs (g l : List (String × Value)) : List Expr → Except String (List Value)
  | [] => Except.ok []
  | e :: rest => do
      let v ← evalExpr g l e
      let vs ← evalArgs g l rest
      Except.ok (v :: vs)
end

/-- Python truthiness for the modelled values. -/
def truthy : Value → Bool
  | Value.vint n => n ≠ 0
  | Value.vstr s => s ≠ ""
  | Value.vnone => false
  | Value.vnode _ => true
  | Value.vfun _ => true

mutual
/-- Execution of one statement.  The locals dict is mutated in place by
Python's `exec`, so the (possibly partially) updated locals are returned
together with the error, if any — mutations before a failure are kept. -/
def execStmt (g l : List (String × Value)) :
    Stmt → List (String × Value) × Option String
  | .exprStmt e =>
      match evalExpr g l e with
      | Except.ok _ => (l, none)
      | Except.error m => (l, some m)
  | .assign x e =>
      match evalExpr g l e with
      | Except.ok v => (setKey l x v, none)
      | Except.error m => (l, some m)
  | .annAssign x e =>
      match evalExpr g l e with
      | Except.ok v => (setKey l x v, none)
      | Except.error m => (l, some m)
  | .augAssign x e =>
      match evalExpr g l (Expr.binAdd (Expr.name x) e) with
      | Except.ok v => (setKey l x v, none)
      | Except.error m => (l, some m)
  | .passStmt => (l, none)
  | .ifStmt c thn els =>
      match evalExpr g l c with
      | Except.error m => (l, some m)
      | Except.ok v => if truthy v then execStmts g l thn else execStmts g l els

/-- Sequential execution, stopping at the first error but keeping the
locals accumulated so far. -/
def execStmts (g l : List (String × Value)) :
    List Stmt → List (String × Value) × Option String
  | [] => (l, none)
  | s :: rest =>
      match execStmt g l s with
      | (l1, none) => execStmts g l1 rest
      | (l1, some m) => (l1, some m)
end

/-- The classification block of `exec_with_return` (lines 18-25): if the
trailing statement is a bare expression it is popped from the body and its
text remembered as the return expression; a simple, annotated or augmented
assignment stays in the body and its target is remembered; anything else
records nothing.  (The source remembers unparsed *text* re-parsed by `eval`
later; unparse-then-parse is the identity on the fragment, so the model
remembers the expression itself.) -/
def record_return (body : List Stmt) : List Stmt × Option Expr :=
  match body.getLast? with
  | none => (body, none)
  | some (.exprStmt e) => (body.dropLast, some e)
  | some (.assign x _) => (body, some (Expr.name x))
  | some (.annAssign x _) => (body, some (Expr.name x))
  | some (.augAssign x _) => (body, some (Expr.name x))
  | some _ => (body, none)

/-- `exec_with_return` (lines 16-28): execute the (possibly trimmed) body,
then evaluate the remembered return expression, if any, in the same scopes.
Python's implicit fall-through return is `None`; the updated locals are
returned in either case (the caller's dict is mutated in place). -/
def exec_with_return (body : List Stmt) (g l : List (String × Value)) :
    List (String × Value) × Except String Value :=
  let (toRun, lastE) := record_return body
  match execStmts g l toRun with
  | (l1, some m) => (l1, Except.error m)
  | (l1, none) =>
      match lastE with
      | none => (l1, Except.ok Value.vnone)
      | some e =>
          match evalExpr g l1 e with
          | Except.ok v => (l1, Except.ok v)
          | Except.error m => (l1, Except.error m)

/-- `str(val)` for the modelled values (only its occurrence in the result
line of the transcript matters, and no claim pins its exact text). -/
def valueStr : Value → String
  | Value.vint n => toString n
  | Value.vstr s => s
  | Value.vnone => "None"
  | Value.vnode a => "<chapel node " ++ a.tag ++ ">"
  | Value.vfun _ => "<function>"

/-- Lines 176-178 of `on_input_submitted`: bind `current_node` to the
selected node (or `None`) and rebind every `_<i>` from `history[i]`. -/
def bindHistory : List (String × Value) → Nat → List Value → List (String × Value)
  | env, _, [] => env
  | env, i, v :: rest =>
      bindHistory (setKey env ("_" ++ Nat.repr i) v) (i + 1) rest

def currentNodeValue : Option AstNode → Value
  | some a => Value.vnode a
  | none => Value.vnone

/-- The environment passed as locals to `exec_with_return`. -/
def bindPrelude (st : AppState) : List (String × Value) :=
  bindHistory (setKey st.env "current_node" (currentNodeValue st.selected_ast))
    0 st.history

/-- `AstExplorer.on_input_submitted` (lines 174-190): bind the prelude,
log the prompt line, run the snippet; on a non-`None` value log the result
line and append to history; on an exception log its message.  The locals
dict mutated by `exec` is `self.env` itself, so `env` reflects the
mutations in every case.  (`changed.input.clear()` only clears the input
widget.) -/
def on_input_submitted (st : AppState) (command : List Stmt)
    (commandText : String) : AppState :=
  let env0 := bindPrelude st
  let log1 := st.translog ++ ["> " ++ commandText]
  match exec_with_return command st.repl_globals env0 with
  | (env1, Except.error m) =>
      { st with env := env1, translog := log1 ++ [m] }
  | (env1, Except.ok v) =>
      match v with
      | Value.vnone => { st with env := env1, translog := log1 }
      | v =>
          { st with
            env := env1
            translog := log1 ++
              ["_" ++ Nat.repr st.history.length ++ " = " ++ valueStr v]
            history := st.history ++ [v] }

/-- A fresh session over an empty document: the interactive state exactly
as `__init__` (lines 99-103) leaves it. -/
def freshState : AppState :=
  { text := ""
    text_lines := []
    asts := []
    selected_ast := none
    history := []
    env := []
    repl_globals := initGlobals
    tree_nodes_for_ast := []
    tree_children := []
    codelog := []
    translog := [] }

/-! ### Concrete sample inputs used by the evaluations and witnesses -/

/-- A representative non-underlined tokenizer style. -/
def sampleStyle : Style := { color := some 1, underline := none }

/-- A two-line tokenization of the selected slice `"abcdef\ngh"`, one
segment per line, as `Segment.split_lines` would yield for a tokenizer
that styles each whole line uniformly. -/
def twoLineSegs : List (List Segment) :=
  [[⟨"abcdef".data, some sampleStyle⟩], [⟨"gh".data, some sampleStyle⟩]]

/-- An app state whose document is the two-line file `"abcdef\ngh"`. -/
def twoLineDoc : AppState :=
  { freshState with text := "abcdef\ngh", text_lines := ["abcdef", "gh"] }

/-- A node covering the whole two-line document: range `(1,1)-(2,2)`. -/
def spanNode : AstNode := AstNode.mk 3 "Block" ⟨1, 1, 2, 2⟩ []

/-- A node starting at column 5 of line 1 and ending at `(2,2)`. -/
def lateStartNode : AstNode := AstNode.mk 4 "Call" ⟨1, 5, 2, 2⟩ []

/-- A node with the unknown-location sentinel. -/
def sentinelNode : AstNode := AstNode.mk 7 "ErroneousExpression" ⟨-1, -1, -1, -1⟩ []

/-- An app state with a nonempty document and an empty code pane. -/
def sentinelDoc : AppState :=
  { freshState with text := "var x = 1;", text_lines := ["var x = 1;"] }

/-- A single old-revision AST node with id 1. -/
def oldNode : AstNode := AstNode.mk 1 "Variable" ⟨1, 1, 1, 4⟩ []

/-- A single new-revision AST node with id 2. -/
def newNode : AstNode := AstNode.mk 2 "Function" ⟨1, 1, 2, 1⟩ []

/-- The session state after the old revision's tree was populated. -/
def oldRevState : AppState :=
  { freshState with
    asts := [oldNode]
    tree_children := (populate_children [oldNode] []).1
    tree_nodes_for_ast := (populate_children [oldNode] []).2 }

/-- The snippet `1 + 1`. -/
def snippetOnePlusOne : List Stmt :=
  [Stmt.exprStmt (Expr.binAdd (Expr.num 1) (Expr.num 1))]

/-- The snippet `_0 + 1`. -/
def snippetHistPlusOne : List Stmt :=
  [Stmt.exprStmt (Expr.binAdd (Expr.name "_0") (Expr.num 1))]

/-- The fresh session after submitting `1 + 1`. -/
def firstSubmission : AppState :=
  on_input_submitted freshState snippetOnePlusOne "1 + 1"

/-- … and after then submitting `_0 + 1`. -/
def secondSubmission : AppState :=
  on_input_submitted firstSubmission snippetHistPlusOne "_0 + 1"

/-! ### Decimal digits, for the injectivity of the `_<i>` history keys -/

/-- The numeric value of a decimal digit character. -/
def digitVal (c : Char) : Nat := c.toNat - '0'.toNat

/-- The number denoted by a decimal digit string (most significant first). -/
def chVal (cs : List Char) : Nat :=
  cs.foldl (fun a c => 10 * a + digitVal c) 0

/-! ## Helper lemmas -/

theorem getKey_setKey_self {κ α : Type} [DecidableEq κ]
    (m : List (κ × α)) (k : κ) (v : α) : getKey (setKey m k v) k = some v := by
  induction m with
  | nil => simp [setKey, getKey]
  | cons p rest ih =>
      obtain ⟨k', v'⟩ := p
      by_cases h : k' = k <;> simp [setKey, getKey, h, ih]

theorem getKey_setKey_ne {κ α : Type} [DecidableEq κ]
    (m : List (κ × α)) (k k' : κ) (v : α) (h : k' ≠ k) :
    getKey (setKey m k' v) k = getKey m k := by
  induction m with
  | nil => simp [setKey, getKey, h]
  | cons p rest ih =>
      obtain ⟨k0, v0⟩ := p
      by_cases h0 : k0 = k' <;> simp [setKey, getKey, h0, ih]
      · subst h0; simp [getKey, h]

/-! ### Injectivity of `Nat.repr`, hence of the `_<i>` history keys -/

theorem digitVal_digitChar (d : Nat) (h : d < 10) :
    digitVal (Nat.digitChar d) = d := by
  interval_cases d <;> decide

theorem toDigitsCore_acc (fuel n : Nat) (ds : List Char) :
    Nat.toDigitsCore 10 fuel n ds = Nat.toDigitsCore 10 fuel n [] ++ ds := by
  induction fuel generalizing n ds with
  | zero => simp [Nat.toDigitsCore]
  | succ fuel ih =>
      simp only [Nat.toDigitsCore]
      by_cases h : n / 10 = 0
      · simp [h]
      · simp only [h, if_false]
        rw [ih (n / 10) [Nat.digitChar (n % 10)],
            ih (n / 10) (Nat.digitChar (n % 10) :: ds), List.append_assoc]
        rfl

theorem toDigitsCore_fuel (f1 f2 n : Nat) (h1 : n < f1) (h2 : n < f2) :
    Nat.toDigitsCore 10 f1 n [] = Nat.toDigitsCore 10 f2 n [] := by
  induction n using Nat.strong_induction_on generalizing f1 f2 with
  | _ n ih =>
      match f1, f2 with
      | m1 + 1, m2 + 1 =>
        simp only [Nat.toDigitsCore]
        by_cases h : n / 10 = 0
        · simp [h]
        · simp only [h, if_false]
          have hn : 0 < n := by
            rcases Nat.eq_zero_or_pos n with h0 | h0
            · exact absurd (by simp [h0]) h
            · exact h0
          have hlt : n / 10 < n := Nat.div_lt_self hn (by norm_num)
          rw [toDigitsCore_acc m1, toDigitsCore_acc m2,
            ih (n / 10) hlt m1 m2 (by omega) (by omega)]

theorem chVal_append_singleton (cs : List Char) (c : Char) :
    chVal (cs ++ [c]) = 10 * chVal cs + digitVal c := by
  simp [chVal, List.foldl_append]

theorem chVal_toDigits (n : Nat) : chVal (Nat.toDigits 10 n) = n := by
  induction n using Nat.strong_induction_on with
  | _ n ih =>
      rw [Nat.toDigits]
      simp only [Nat.toDigitsCore]
      by_cases h : n / 10 = 0
      · simp only [h, if_false, if_true]
        have hn : n < 10 := by omega
        simp only [chVal, List.foldl_cons, List.foldl_nil, Nat.mul_zero,
          Nat.zero_add, Nat.mod_eq_of_lt hn]
        exact digitVal_digitChar n hn
      · simp only [h, if_false]
        have hn : 0 < n := by
          rcases Nat.eq_zero_or_pos n with h0 | h0
          · exact absurd (by simp [h0]) h
          · exact h0
        have hlt : n / 10 < n := Nat.div_lt_self hn (by norm_num)
        rw [toDigitsCore_acc n (n / 10),
          toDigitsCore_fuel n (n / 10 + 1) (n / 10) (by omega) (by omega)]
        rw [show Nat.toDigitsCore 10 (n / 10 + 1) (n / 10) [] =
              Nat.toDigits 10 (n / 10) from rfl]
        rw [chVal_append_singleton, ih (n / 10) hlt,
          digitVal_digitChar (n % 10) (Nat.mod_lt _ (by norm_num))]
        omega

theorem natRepr_injective {m n : Nat} (h : Nat.repr m = Nat.repr n) : m = n := by
  have hd : Nat.toDigits 10 m = Nat.toDigits 10 n := by
    have := congrArg String.data h
    simpa [Nat.repr, List.asString] using this
  calc m = chVal (Nat.toDigits 10 m) := (chVal_toDigits m).symm
    _ = chVal (Nat.toDigits 10 n) := by rw [hd]
    _ = n := chVal_toDigits n

theorem histKey_injective {m n : Nat}
    (h : "_" ++ Nat.repr m = "_" ++ Nat.repr n) : m = n := by
  apply natRepr_injective
  have := congrArg String.data h
  simp only [String.data_append] at this
  exact String.ext (List.cons_injective this)

theorem getKey_bindHistory_of_ge (vals : List Value)
    (env : List (String × Value)) (k : Nat) (key : String)
    (h : ∀ m : Nat, k ≤ m → key ≠ "_" ++ Nat.repr m) :
    getKey (bindHistory env k vals) key = getKey env key := by
  induction vals generalizing env k with
  | nil => rfl
  | cons v rest ih =>
      show getKey (bindHistory (setKey env ("_" ++ Nat.repr k) v) (k + 1) rest) key = _
      rw [ih _ (k + 1) (fun m hm => h m (by omega))]
      exact getKey_setKey_ne _ _ _ _ (fun he => (h k le_rfl) he.symm)

theorem getKey_bindHistory (vals : List Value)
    (env : List (String × Value)) (k i : Nat) (h : i < vals.length) :
    getKey (bindHistory env k vals) ("_" ++ Nat.repr (k + i)) =
      some (vals.get ⟨i, h⟩) := by
  induction vals generalizing env k i with
  | nil => simp at h
  | cons v rest ih =>
      cases i with
      | zero =>
          show getKey (bindHistory (setKey env ("_" ++ Nat.repr k) v) (k + 1) rest) _ = _
          rw [Nat.add_zero]
          rw [getKey_bindHistory_of_ge rest _ (k + 1) _ ?_]
          · exact getKey_setKey_self env ("_" ++ Nat.repr k) v
          · intro m hm heq
            have := histKey_injective heq
            omega
      | succ j =>
          show getKey (bindHistory (setKey env ("_" ++ Nat.repr k) v) (k + 1) rest) _ = _
          have hj : j < rest.length := by simpa using h
          have := ih (setKey env ("_" ++ Nat.repr k) v) (k + 1) j hj
          rw [show k + (j + 1) = (k + 1) + j by omega]
          exact this

/-! ### Slicing lemmas -/

theorem take_clamp {α : Type} (l : List α) (k n : Nat) (h : l.length ≤ n) :
    l.take (min k n) = l.take k := by
  rcases le_or_lt k n with hk | hk
  · rw [Nat.min_eq_left hk]
  · rw [Nat.min_eq_right (le_of_lt hk)]
    rw [List.take_of_length_le h, List.take_of_length_le (by omega)]

theorem drop_clamp {α : Type} (l : List α) (k n : Nat) (h : l.length ≤ n) :
    l.drop (min k n) = l.drop k := by
  rcases le_or_lt k n with hk | hk
  · rw [Nat.min_eq_left hk]
  · rw [Nat.min_eq_right (le_of_lt hk)]
    rw [List.drop_of_length_le h, List.drop_of_length_le (by omega)]

theorem pySlice_nonneg {α : Type} (l : List α) (a b : Int)
    (ha : 0 ≤ a) (hb : 0 ≤ b) :
    pySlice l a b = (l.take b.toNat).drop a.toNat := by
  unfold pySlice pyIdx
  rw [if_neg (by omega), if_neg (by omega)]
  rw [take_clamp l b.toNat l.length le_rfl,
    drop_clamp (l.take b.toNat) a.toNat l.length (by simp)]

theorem pySlice_zero_nonneg {α : Type} (l : List α) (b : Int) (hb : 0 ≤ b) :
    pySlice l 0 b = l.take b.toNat := by
  rw [pySlice_nonneg l 0 b le_rfl hb]
  simp

theorem pySliceFrom_nonneg {α : Type} (l : List α) (a : Int) (ha : 0 ≤ a) :
    pySliceFrom l a = l.drop a.toNat := by
  unfold pySliceFrom pyIdx
  rw [if_neg (by omega)]
  exact drop_clamp l a.toNat l.length le_rfl

theorem take_drop_concat {α : Type} (l : List α) (a b : Nat) (hab : a ≤ b) :
    l.take a ++ ((l.take b).drop a) ++ l.drop b = l := by
  have h1 : l.take a = (l.take b).take a := by
    rw [List.take_take, Nat.min_eq_left hab]
  calc l.take a ++ ((l.take b).drop a) ++ l.drop b
      = ((l.take b).take a ++ (l.take b).drop a) ++ l.drop b := by rw [h1]
    _ = l.take b ++ l.drop b := by rw [List.take_append_drop]
    _ = l := List.take_append_drop b l

/-! ## The claims -/

/-- **C3, counterexample.** Selecting a node whose range starts at the `-1`
sentinel does *not* fall back to rendering the whole document: `show_ast`
returns before touching the code pane, so the pane keeps its previous
content (here: empty), whereas the whole-document unhighlighted render is
what `show_ast` produces only for a `None` selection. -/
theorem c3_no_fallback_render :
    (show_ast sentinelDoc (some sentinelNode)).codelog = [] ∧
    (show_ast sentinelDoc none).codelog =
      [Renderable.plain "var x = 1;" "chapel"] ∧
    ([] : List Renderable) ≠ [Renderable.plain "var x = 1;" "chapel"] :=
  ⟨rfl, rfl, by decide⟩

/-- **C3, amended.** Selecting a node with the unknown-location sentinel is
not an error: `show_ast` records the selection and returns early, leaving
the code pane exactly as it was (in particular it draws no underline); the
whole-document unhighlighted render happens only when the selection is
cleared. -/
theorem c3_sentinel_leaves_pane (st : AppState) (a : AstNode)
    (h : a.loc.startLine = -1) :
    show_ast st (some a) = { st with selected_ast := some a } := by
  simp [show_ast, h]

/-- **C3, witness** for `c3_sentinel_leaves_pane`. -/
theorem c3_sentinel_leaves_pane_witness :
    sentinelNode.loc.startLine = -1 ∧
    show_ast sentinelDoc (some sentinelNode) =
      { sentinelDoc with selected_ast := some sentinelNode } :=
  ⟨rfl, c3_sentinel_leaves_pane sentinelDoc sentinelNode rfl⟩

/-- **C4** (code bug).  `reparse` never resets `tree_nodes_for_ast`: it only
repopulates entries for ids of the new forest, so an id of the old forest
that is absent from the new forest keeps its stale entry.  Concretely:
after reparsing from the forest `[oldNode]` (id 1) to the forest
`[newNode]` (id 2), the table still maps id 1 to the old revision's node,
although 1 is not an id of the new forest. -/
theorem c4_stale_id_survives_reparse :
    (reparse oldRevState "proc f() do;" ["proc f() do;"] [newNode]).asts
        = [newNode] ∧
    getKey (reparse oldRevState "proc f() do;" ["proc f() do;"]
        [newNode]).tree_nodes_for_ast 1 = some oldNode ∧
    ¬ (1 ∈ [newNode].map AstNode.uid) :=
  ⟨rfl, rfl, by decide⟩

/-- **C8.** `reparse` clears the selection to `none` and leaves the session
state untouched: history, environment and the REPL globals are exactly as
before (only document, tree and pane state are rebuilt).  The hypothesis is
the spec's own precondition that the reparsed file has text: on an empty
line list, `load_file`'s `max()` over the line lengths would raise before
`reparse` completes. -/
theorem c8_reparse_preserves_session (st : AppState) (newText : String)
    (newLines : List String) (newAsts : List AstNode)
    (_hne : newLines ≠ []) :
    (reparse st newText newLines newAsts).history = st.history ∧
    (reparse st newText newLines newAsts).env = st.env ∧
    (reparse st newText newLines newAsts).repl_globals = st.repl_globals ∧
    (reparse st newText newLines newAsts).selected_ast = none := by
  cases hp : populate_children newAsts st.tree_nodes_for_ast with
  | mk c t => simp [reparse, show_ast, hp]

/-- **C8, witness** for `c8_reparse_preserves_session`. -/
theorem c8_reparse_preserves_session_witness :
    (["proc f() do;"] : List String) ≠ [] ∧
    (reparse oldRevState "proc f() do;" ["proc f() do;"] [newNode]).history
        = oldRevState.history ∧
    (reparse oldRevState "proc f() do;" ["proc f() do;"]
        [newNode]).selected_ast = none := by
  have h := c8_reparse_preserves_session oldRevState "proc f() do;"
    ["proc f() do;"] [newNode] (by decide)
  exact ⟨by decide, h.1, h.2.2.2⟩

/-- **C5, counterexample.** A snippet whose trailing statement is a call
statement (`abs(-2)`) *does* record a return expression — in Python's AST a
call statement is a bare-expression statement (`ast.Expr` around
`ast.Call`), the first branch of the classification — and, the call's value
being non-`None`, submitting it grows the history. -/
theorem c5_trailing_call_grows_history :
    (record_return [Stmt.exprStmt (Expr.call (Expr.name "abs")
        [Expr.num (-2)])]).2
      = some (Expr.call (Expr.name "abs") [Expr.num (-2)]) ∧
    (on_input_submitted freshState
        [Stmt.exprStmt (Expr.call (Expr.name "abs") [Expr.num (-2)])]
        "abs(-2)").history = [Value.vint 2] ∧
    freshState.history = [] :=
  ⟨rfl, rfl, rfl⟩

/-- **C5, amended.** For every submitted snippet that is empty or whose
trailing statement is a control-flow statement (e.g. `pass`, `if`), no
return expression is recorded and submit produces no value: the history
does not grow.  (A trailing *call* statement is instead classified as a
bare expression, whose value is returned.) -/
theorem c5_trailing_control_flow_no_value (st : AppState) (body : List Stmt)
    (t : String)
    (h : body.getLast? = none ∨ body.getLast? = some Stmt.passStmt ∨
         ∃ c thn els, body.getLast? = some (Stmt.ifStmt c thn els)) :
    (record_return body).2 = none ∧
    (on_input_submitted st body t).history = st.history := by
  have hrr : record_return body = (body, none) := by
    rcases h with h | h | ⟨c, thn, els, h⟩ <;> simp [record_return, h]
  refine ⟨by rw [hrr], ?_⟩
  simp only [on_input_submitted, exec_with_return, hrr]
  rcases hex : execStmts st.repl_globals (bindPrelude st) body with ⟨env1, err⟩
  cases err <;> simp [hex]

/-- **C5, witness** for `c5_trailing_control_flow_no_value`. -/
theorem c5_trailing_control_flow_no_value_witness :
    (record_return [Stmt.passStmt]).2 = none ∧
    (on_input_submitted freshState [Stmt.passStmt] "pass").history =
      freshState.history :=
  c5_trailing_control_flow_no_value freshState [Stmt.passStmt] "pass"
    (Or.inr (Or.inl rfl))

/-- **C6.** A snippet of the shape `y = <expr>; <trailing expr>` whose
trailing expression raises after the assignment succeeded: the error is
caught at the submission boundary and logged (not propagated — the handler
returns a state), the earlier binding of `y` remains in the environment,
and the history is unchanged. -/
theorem c6_error_retains_partial_bindings (st : AppState) (t y : String)
    (ve bad : Expr) (w : Value) (msg : String)
    (hve : evalExpr st.repl_globals (bindPrelude st) ve = Except.ok w)
    (hbad : evalExpr st.repl_globals (setKey (bindPrelude st) y w) bad =
      Except.error msg) :
    (on_input_submitted st [Stmt.assign y ve, Stmt.exprStmt bad] t).history
        = st.history ∧
    getKey (on_input_submitted st [Stmt.assign y ve, Stmt.exprStmt bad] t).env y
        = some w ∧
    (on_input_submitted st [Stmt.assign y ve, Stmt.exprStmt bad] t).translog
        = st.translog ++ ["> " ++ t, msg] := by
  have hrr : record_return [Stmt.assign y ve, Stmt.exprStmt bad] =
      ([Stmt.assign y ve], some bad) := by
    simp [record_return]
  simp only [on_input_submitted, exec_with_return, hrr, execStmts, execStmt,
    hve, hbad]
  exact ⟨trivial, getKey_setKey_self _ _ _, by simp⟩

/-- **C6, witness**: the claim's own example `y = 1; y + bogus_name`. -/
theorem c6_error_retains_partial_bindings_witness :
    evalExpr freshState.repl_globals (bindPrelude freshState) (Expr.num 1) =
      Except.ok (Value.vint 1) ∧
    evalExpr freshState.repl_globals
        (setKey (bindPrelude freshState) "y" (Value.vint 1))
        (Expr.binAdd (Expr.name "y") (Expr.name "bogus_name")) =
      Except.error "NameError: name bogus_name is not defined" ∧
    (on_input_submitted freshState
        [Stmt.assign "y" (Expr.num 1),
         Stmt.exprStmt (Expr.binAdd (Expr.name "y") (Expr.name "bogus_name"))]
        "y = 1; y + bogus_name").history = freshState.history ∧
    getKey (on_input_submitted freshState
        [Stmt.assign "y" (Expr.num 1),
         Stmt.exprStmt (Expr.binAdd (Expr.name "y") (Expr.name "bogus_name"))]
        "y = 1; y + bogus_name").env "y" = some (Value.vint 1) := by
  have h := c6_error_retains_partial_bindings freshState "y = 1; y + bogus_name"
    "y" (Expr.num 1) (Expr.binAdd (Expr.name "y") (Expr.name "bogus_name"))
    (Value.vint 1) "NameError: name bogus_name is not defined" rfl rfl
  exact ⟨rfl, rfl, h.1, h.2.1⟩

/-- **C7.** Before each submission every `_<i>` is rebound from
`history[i]` (first conjunct, for an arbitrary session state), and
concretely: submitting `1 + 1` to a fresh session returns `2` and appends
it to the history, after which submitting `_0 + 1` returns `3`. -/
theorem c7_positional_history_bindings (st : AppState) (i : Nat)
    (h : i < st.history.length) :
    getKey (bindPrelude st) ("_" ++ Nat.repr i) = some (st.history.get ⟨i, h⟩) ∧
    firstSubmission.history = [Value.vint 2] ∧
    secondSubmission.history = [Value.vint 2, Value.vint 3] := by
  refine ⟨?_, rfl, rfl⟩
  have h0 := getKey_bindHistory st.history
    (setKey st.env "current_node" (currentNodeValue st.selected_ast)) 0 i h
  simpa [bindPrelude] using h0

/-- **C7, witness** for `c7_positional_history_bindings` at the state after
the first submission. -/
theorem c7_positional_history_bindings_witness :
    0 < firstSubmission.history.length ∧
    getKey (bindPrelude firstSubmission) ("_" ++ Nat.repr 0) =
      some (Value.vint 2) := by
  have h : 0 < firstSubmission.history.length := by decide
  exact ⟨h, (c7_positional_history_bindings firstSubmission 0 h).1⟩

/-- **C10.** When the recorded return expression of a submission evaluates
to `None`, the submission is treated as producing no value: the history
does not grow (it grows exactly when the produced value is not `None`), no
result line is logged (the transcript gains only the prompt line), and the
environment still reflects the executed snippet's mutations. -/
theorem c10_none_result_is_no_value (st : AppState) (body : List Stmt)
    (t : String) (env1 : List (String × Value)) (v : Value)
    (h : exec_with_return body st.repl_globals (bindPrelude st) =
      (env1, Except.ok v)) :
    ((on_input_submitted st body t).history = st.history ↔ v = Value.vnone) ∧
    (v = Value.vnone →
      (on_input_submitted st body t).translog = st.translog ++ ["> " ++ t] ∧
      (on_input_submitted st body t).env = env1) ∧
    (v ≠ Value.vnone →
      (on_input_submitted st body t).history = st.history ++ [v]) := by
  simp only [on_input_submitted, h]
  cases v <;> simp

/-- **C10, witness**: a trailing call of the `None`-returning `print`. -/
theorem c10_none_result_is_no_value_witness :
    exec_with_return
        [Stmt.exprStmt (Expr.call (Expr.name "print") [Expr.str "hi"])]
        freshState.repl_globals (bindPrelude freshState) =
      ([("current_node", Value.vnone)], Except.ok Value.vnone) ∧
    (on_input_submitted freshState
        [Stmt.exprStmt (Expr.call (Expr.name "print") [Expr.str "hi"])]
        "print(hi)").history = freshState.history := by
  have h : exec_with_return
      [Stmt.exprStmt (Expr.call (Expr.name "print") [Expr.str "hi"])]
      freshState.repl_globals (bindPrelude freshState) =
      ([("current_node", Value.vnone)], Except.ok Value.vnone) := rfl
  exact ⟨h, ((c10_none_result_is_no_value freshState _ "print(hi)" _ _
    h).1).mpr rfl⟩

/-- **C1** (code bug).  For the multi-line range `(1,1)-(2,2)` over the
document `"abcdef\ngh"`, the claim requires line 1 to be underlined from
column 0 *to the end of the line*.  `show_ast` does emit the expected
before/selected/after blocks with relative location `((0,0),(1,1))`, but
the underline renderer computes the first line's window end as
`sum(len(s) for s in seg_line)` where `s` are rich `Segment` NamedTuples,
i.e. `3 * (number of segments)` — here `3` — so the character `d` at
column 3 of the first selected line is *not* underlined. -/
theorem c1_multiline_underline_truncated :
    (show_ast twoLineDoc (some spanNode)).codelog =
      [Renderable.plain "" "text",
       Renderable.withUnderline ((0, 0), (1, 1)) "abcdef\ngh" "chapel",
       Renderable.plain "" "text"] ∧
    rich_console ((0, 0), (1, 1)) twoLineSegs =
      [⟨[], some sampleStyle⟩,
       ⟨['a', 'b', 'c'], some (newStyleOf (some sampleStyle))⟩,
       ⟨['d', 'e', 'f'], some sampleStyle⟩,
       ⟨['\n'], none⟩,
       ⟨[], some sampleStyle⟩,
       ⟨['g'], some (newStyleOf (some sampleStyle))⟩,
       ⟨['h'], some sampleStyle⟩] ∧
    (segsChars (rich_console ((0, 0), (1, 1)) twoLineSegs))[3]? =
      some ('d', some sampleStyle) ∧
    isUnderlined (some sampleStyle) = false :=
  ⟨rfl, rfl, rfl, rfl⟩

/-- **C2** (code bug).  For the range `(1,5)-(2,2)` over the same document
(start column 5 of the six-character first line — a well-formed range),
the rendered output is *not* byte-for-byte the same text as the ordinary
rendering: the first line's window end is again `3`, which lies before the
window start `4`, so the three split pieces `text[0:4]`, `text[4:3]`,
`text[3:]` duplicate the character `d`: the output text is `"abcddef\ngh"`
instead of `"abcdef\ngh"`. -/
theorem c2_rendered_text_differs :
    (show_ast twoLineDoc (some lateStartNode)).codelog =
      [Renderable.plain "" "text",
       Renderable.withUnderline ((0, 4), (1, 1)) "abcdef\ngh" "chapel",
       Renderable.plain "" "text"] ∧
    ((segsChars (rich_console ((0, 4), (1, 1)) twoLineSegs)).map
      Prod.fst).asString = "abcddef\ngh" ∧
    ((segsChars (renderPlain twoLineSegs)).map Prod.fst).asString =
      "abcdef\ngh" ∧
    ((segsChars (rich_console ((0, 4), (1, 1)) twoLineSegs)).map Prod.fst) ≠
      ((segsChars (renderPlain twoLineSegs)).map Prod.fst) :=
  ⟨rfl, rfl, rfl, by decide⟩

/-- **C9, counterexample.** Empty pieces are *not* omitted from the output:
splitting the segment `"ab"` for the window `[0, 1)` (a single-line range
whose window starts at column 0) appends a zero-length first piece to the
output segment stream. -/
theorem c9_empty_piece_not_omitted :
    processSegment 0 0 0 1 0 0 1 0 ⟨['a', 'b'], some sampleStyle⟩ =
      [⟨[], some sampleStyle⟩,
       ⟨['a'], some (newStyleOf (some sampleStyle))⟩,
       ⟨['b'], some sampleStyle⟩] ∧
    (processSegment 0 0 0 1 0 0 1 0 ⟨['a', 'b'], some sampleStyle⟩).any
      (fun s => s.text.isEmpty) = true :=
  ⟨rfl, rfl⟩

/-- **C9, amended.**  One step of the segment loop, under the invariants
holding at every call site in `richConsoleLine` (`start_pos` is
`start_column` on the start line and `0` below it; `end_pos` is
`end_column` on the end line and otherwise an upper bound for the line's
column span; the running column `col` is nonnegative; on a range confined
to one line the start column does not exceed the end column):
a *nonempty* segment lying entirely outside the underline window
`[start_pos, end_pos)` is emitted unchanged, style preserved; otherwise,
when neither fast-path guard fires, the segment is split into exactly
three contiguous pieces at `max(start_pos - col, 0)` and
`min(end_pos - col, len)`: the middle piece carries the segment's existing
style with the underline attribute added on top of it, the outer pieces
keep the original style unchanged, and the three texts concatenate back to
the segment's text — empty pieces are emitted as zero-length segments
(contributing no characters), not omitted. -/
theorem c9_segment_split (sl sc el ec line sp ep col : Int) (seg : Segment)
    (hsl : line = sl → sp = sc) (hsl2 : line ≠ sl → sp = 0)
    (hel : line = el → ep = ec)
    (hep : line ≠ el → col + (seg.text.length : Int) ≤ ep)
    (hse : line = sl → line = el → sc ≤ ec)
    (hcol : 0 ≤ col) :
    (seg.text ≠ [] ∧ (col + (seg.text.length : Int) ≤ sp ∨ ep ≤ col) →
      processSegment sl sc el ec line sp ep col seg = [seg]) ∧
    (¬ (line = sl ∧ col + (seg.text.length : Int) ≤ sc) →
     ¬ (line = el ∧ col ≥ ec) →
      processSegment sl sc el ec line sp ep col seg =
        [⟨seg.text.take (max (sp - col) 0).toNat, seg.style⟩,
         ⟨(seg.text.take (min (ep - col) (seg.text.length : Int)).toNat).drop
            (max (sp - col) 0).toNat, some (newStyleOf seg.style)⟩,
         ⟨seg.text.drop (min (ep - col) (seg.text.length : Int)).toNat,
            seg.style⟩] ∧
      (max (sp - col) 0).toNat ≤
        (min (ep - col) (seg.text.length : Int)).toNat ∧
      seg.text.take (max (sp - col) 0).toNat ++
        ((seg.text.take (min (ep - col) (seg.text.length : Int)).toNat).drop
          (max (sp - col) 0).toNat) ++
        seg.text.drop (min (ep - col) (seg.text.length : Int)).toNat
        = seg.text) := by
  constructor
  · rintro ⟨hne, hout⟩
    have hlen : 0 < seg.text.length := List.length_pos.mpr hne
    by_cases g1 : line = sl ∧ col + (seg.text.length : Int) ≤ sc
    · unfold processSegment
      rw [if_pos]
      exact g1
    · by_cases g2 : line = el ∧ col ≥ ec
      · unfold processSegment
        rw [if_neg g1, if_pos]
        exact g2
      · exfalso
        rcases hout with hout | hout
        · by_cases hL : line = sl
          · exact g1 ⟨hL, by rw [hsl hL] at hout; exact hout⟩
          · have := hsl2 hL; omega
        · by_cases hL : line = el
          · exact g2 ⟨hL, by rw [hel hL] at hout; omega⟩
          · have := hep hL; omega
  · intro g1 g2
    have hmE : 0 ≤ min (ep - col) (seg.text.length : Int) := by
      by_cases hL : line = el
      · have h1 := hel hL
        have h2 : ¬ (col ≥ ec) := fun hc => g2 ⟨hL, hc⟩
        omega
      · have := hep hL; omega
    have hab : max (sp - col) 0 ≤ min (ep - col) (seg.text.length : Int) := by
      by_cases hLs : line = sl
      · have hsp := hsl hLs
        have hg1 : ¬ (col + (seg.text.length : Int) ≤ sc) :=
          fun hc => g1 ⟨hLs, hc⟩
        by_cases hLe : line = el
        · have hec := hel hLe
          have hg2 : ¬ (col ≥ ec) := fun hc => g2 ⟨hLe, hc⟩
          have := hse hLs hLe
          omega
        · have := hep hLe; omega
      · have := hsl2 hLs
        omega
    have habN : (max (sp - col) 0).toNat ≤
        (min (ep - col) (seg.text.length : Int)).toNat :=
      Int.toNat_le_toNat hab
    refine ⟨?_, habN, ?_⟩
    · unfold processSegment
      rw [if_neg g1, if_neg g2]
      dsimp only
      rw [pySlice_zero_nonneg _ _ (le_max_right _ _),
        pySlice_nonneg _ _ _ (le_max_right _ _) hmE,
        pySliceFrom_nonneg _ _ hmE]
    · exact take_drop_concat _ _ _ habN

/-- **C9, witness** for `c9_segment_split`: the single-line window `[1, 2)`
over the segment `"abc"` splits it into `"a"`, underlined `"b"`, `"c"`. -/
theorem c9_segment_split_witness :
    processSegment 0 1 0 2 0 1 2 0 ⟨['a', 'b', 'c'], some sampleStyle⟩ =
      [⟨['a'], some sampleStyle⟩,
       ⟨['b'], some (newStyleOf (some sampleStyle))⟩,
       ⟨['c'], some sampleStyle⟩] := by
  have h := (c9_segment_split 0 1 0 2 0 1 2 0
      ⟨['a', 'b', 'c'], some sampleStyle⟩
      (fun _ => rfl) (fun hne => absurd rfl hne)
      (fun _ => rfl) (fun hne => absurd rfl hne)
      (fun _ _ => by decide) le_rfl).2
      (by decide) (by decide)
  exact h.1

end ChapelExplorer
